import Mathlib

/-!
Verification development for the currency-conversion collector.

The development shallowly embeds the two Python modules of the repository:

* `ccr_test.py` — the daily flow: a prioritized adapter chain
  (`fetch_usd_quotes_for_date`), per-date row construction
  (`build_rows_for_date`), multi-date collection with gap filling
  (`collect_for_dates`) and the "new row wins" writer (`write_append_dedupe`).
* `new_ccr.py` — the month-block flow: the x-rates scraping adapter
  (`fetch_xrates_usd_to_quotes`), month-row construction
  (`build_rows_for_current_month`) and the "insert if absent" writer
  (`merge_and_write`).

Python `dict`s are embedded as association lists with unique keys maintained
by `dictInsert`; Python `float`s are embedded as rationals; fallible Python
code returns `Except PyErr`.  HTTP transport and HTML table extraction are
external collaborators (spec §1): adapters are parameters of the resolver,
and the x-rates scraper is parameterized by the list of extracted tables,
each table being the list of its (name cell, parsed rate cell) rows that the
column-detection step yields.
-/

namespace CCR

/-- Python exceptions that the embedded code can raise. -/
inductive PyErr where
  | keyError (msg : String)
  | valueError (msg : String)
  | runtimeError (msg : String)
  | zeroDivisionError
  deriving DecidableEq

/-- A calendar date, as used by `datetime.date`. -/
structure Date where
  year : Nat
  month : Nat
  day : Nat
  deriving DecidableEq

/-- Full month names, as produced by `strftime("%B")`. -/
def MONTH_NAMES : List String :=
  ["January", "February", "March", "April", "May", "June",
   "July", "August", "September", "October", "November", "December"]

/-- `strftime("%B")` on the embedded date. -/
def Date.monthName (d : Date) : String := MONTH_NAMES.getD (d.month - 1) ""

/-- Zero-padding to two digits, as in ISO date rendering. -/
def pad2 (n : Nat) : String := if n < 10 then "0" ++ toString n else toString n

/-- `date.isoformat()`: `YYYY-MM-DD`. -/
def Date.isoformat (d : Date) : String :=
  toString d.year ++ "-" ++ pad2 d.month ++ "-" ++ pad2 d.day

/-- A Python `dict` with `String` keys: an association list in insertion
order; all operations below preserve key uniqueness. -/
abbrev Dict (α : Type) := List (String × α)

/-- `d[k]` lookup returning `none` when the key is absent. -/
def dictLookup {α : Type} (m : Dict α) (k : String) : Option α :=
  (m.find? (fun p => p.1 == k)).map (fun p => p.2)

/-- `k in d`. -/
def dictContains {α : Type} (m : Dict α) (k : String) : Bool :=
  (dictLookup m k).isSome

/-- `d[k] = v`: update in place when the key exists, append otherwise —
Python dict insertion-order semantics. -/
def dictInsert {α : Type} (m : Dict α) (k : String) (v : α) : Dict α :=
  if dictContains m k then m.map (fun p => if p.1 = k then (k, v) else p)
  else m ++ [(k, v)]

/-- `d.setdefault(k, v)`: insert only when the key is absent. -/
def dictSetdefault {α : Type} (m : Dict α) (k : String) (v : α) : Dict α :=
  if dictContains m k then m else m ++ [(k, v)]

@[simp] theorem dictLookup_nil {α : Type} (k : String) :
    dictLookup ([] : Dict α) k = none := rfl

@[simp] theorem dictLookup_cons {α : Type} (p : String × α) (m : Dict α) (k : String) :
    dictLookup (p :: m) k = if p.1 = k then some p.2 else dictLookup m k := by
  by_cases h : p.1 = k
  · simp [dictLookup, List.find?_cons, h]
  · have hb : (p.1 == k) = false := beq_eq_false_iff_ne.mpr h
    simp [dictLookup, List.find?_cons, hb, h]

theorem dictLookup_append {α : Type} (m₁ m₂ : Dict α) (k : String) :
    dictLookup (m₁ ++ m₂) k =
      ((dictLookup m₁ k).orElse (fun _ => dictLookup m₂ k)) := by
  induction m₁ with
  | nil => simp [Option.orElse]
  | cons p m ih =>
      by_cases h : p.1 = k <;> simp [h, ih, Option.orElse]

theorem dictLookup_map_update_ne {α : Type} (m : Dict α) (k c : String) (v : α)
    (h : c ≠ k) :
    dictLookup (m.map (fun p => if p.1 = k then (k, v) else p)) c = dictLookup m c := by
  induction m with
  | nil => rfl
  | cons p m ih =>
      by_cases hpk : p.1 = k
      · simp [hpk, Ne.symm h, ih]
      · by_cases hpc : p.1 = c <;> simp [hpk, hpc, ih, h]

theorem dictLookup_insert_self {α : Type} (m : Dict α) (k : String) (v : α) :
    dictLookup (dictInsert m k v) k = some v := by
  unfold dictInsert
  by_cases h : dictContains m k
  · simp only [h, if_true]
    induction m with
    | nil => simp [dictContains, dictLookup] at h
    | cons p m ih =>
        by_cases hpk : p.1 = k
        · simp [hpk]
        · have h' : dictContains m k := by
            simpa [dictContains, hpk] using h
          simpa [hpk] using ih h'
  · have hnone : dictLookup m k = none := by
      cases hl : dictLookup m k with
      | none => rfl
      | some w => exact absurd (by simp [dictContains, hl]) h
    rw [if_neg h, dictLookup_append]
    simp [hnone]

theorem dictLookup_insert_ne {α : Type} (m : Dict α) (k c : String) (v : α)
    (h : c ≠ k) : dictLookup (dictInsert m k v) c = dictLookup m c := by
  unfold dictInsert
  by_cases hc : dictContains m k
  · simpa [hc] using dictLookup_map_update_ne m k c v h
  · rw [if_neg hc, dictLookup_append]
    have h2 : dictLookup [(k, v)] c = none := by simp [Ne.symm h]
    simp only [h2]
    cases dictLookup m c <;> rfl

theorem dictLookup_setdefault_ne {α : Type} (m : Dict α) (k c : String) (v : α)
    (h : c ≠ k) : dictLookup (dictSetdefault m k v) c = dictLookup m c := by
  unfold dictSetdefault
  by_cases hc : dictContains m k
  · simp [hc]
  · rw [if_neg hc, dictLookup_append]
    have h2 : dictLookup [(k, v)] c = none := by simp [Ne.symm h]
    simp only [h2]
    cases dictLookup m c <;> rfl

theorem dictLookup_setdefault_absent {α : Type} (m : Dict α) (k : String) (v : α)
    (h : dictLookup m k = none) : dictLookup (dictSetdefault m k v) k = some v := by
  have hc : dictContains m k = false := by simp [dictContains, h]
  rw [dictSetdefault, if_neg (by simp [hc]), dictLookup_append, h]
  simp [Option.orElse]

theorem dictLookup_setdefault_present {α : Type} (m : Dict α) (k : String) (v w : α)
    (h : dictLookup m k = some w) : dictLookup (dictSetdefault m k v) k = some w := by
  have hc : dictContains m k = true := by simp [dictContains, h]
  simp [dictSetdefault, hc, h]

/-- The tracked currency set, in the fixed order of the `CURRENCIES` list
(identical in both modules). -/
def CURRENCIES : List String :=
  ["USD", "ARS", "AUD", "BRL", "CAD", "CLP", "CNY", "AED", "EUR", "MXN", "NZD", "PAB", "GBP"]

/-- The static currency → (country, country code) lookup `COUNTRY_MAP`
(identical in both modules). -/
def COUNTRY_MAP : Dict (String × String) :=
  [("USD", ("UNITED STATES", "USA")),
   ("ARS", ("ARGENTINA", "ARG")),
   ("AUD", ("AUSTRALIA", "AUS")),
   ("BRL", ("BRASIL", "BRA")),
   ("CAD", ("CANADA", "CAN")),
   ("CLP", ("CHILE", "CHL")),
   ("CNY", ("CHINA", "CHN")),
   ("AED", ("DUBAI", "UAE")),
   ("EUR", ("EUROPE", "EUR")),
   ("MXN", ("MEXICO", "MEX")),
   ("NZD", ("NEW ZEALAND", "NZ")),
   ("PAB", ("PANAMA", "PAN")),
   ("GBP", ("UNITED KINGDOM", "UK"))]

/-- The static x-rates currency-name → ISO code lookup `XRATES_NAME_TO_ISO`
(identical in both modules). -/
def XRATES_NAME_TO_ISO : Dict String :=
  [("US Dollar", "USD"), ("U.S. Dollar", "USD"),
   ("Argentine Peso", "ARS"),
   ("Australian Dollar", "AUD"),
   ("Brazilian Real", "BRL"),
   ("Canadian Dollar", "CAD"),
   ("Chilean Peso", "CLP"),
   ("Chinese Yuan", "CNY"), ("Chinese Yuan Renminbi", "CNY"),
   ("UAE Dirham", "AED"), ("Emirati Dirham", "AED"),
   ("Euro", "EUR"),
   ("Mexican Peso", "MXN"),
   ("New Zealand Dollar", "NZD"),
   ("Panamanian Balboa", "PAB"),
   ("British Pound", "GBP"), ("British Pound Sterling", "GBP")]

/-- Round a rational to the nearest integer, ties to even — the rounding of
Python's builtin `round` on exactly-representable values. -/
def halfEvenInt (x : ℚ) : ℤ :=
  let f : ℤ := ⌊x⌋
  let r : ℚ := x - (f : ℚ)
  if r < 1 / 2 then f
  else if 1 / 2 < r then f + 1
  else if f % 2 = 0 then f else f + 1

/-- Python's `round(x, 6)` on the rational embedding of floats. -/
def pyRound6 (x : ℚ) : ℚ := (halfEvenInt (x * 1000000) : ℚ) / 1000000

/-! ## Daily flow (`ccr_test.py`) -/

/-- One element of the `rows` list built by `build_rows_for_date`
(`ccr_test.py` lines 218–226): a dict with these seven keys. -/
structure DailyRow where
  conversion_date : String
  conversion_year : Nat
  conversion_month : String
  country : String
  country_code : String
  currency : String
  conversion_rate : Option ℚ
  deriving DecidableEq

/-- The `conv` computation of `build_rows_for_date` (`ccr_test.py` lines
213–216): PAB is forced to `1.0`; otherwise
`round(1 / float(usd_to[ccy]), 6) if ccy in usd_to and usd_to[ccy] is not None
else None`.  A present, non-`None`, zero quote reaches `1 / 0.0`, which raises
`ZeroDivisionError` in Python. -/
def convDaily (usd_to : Dict (Option ℚ)) (ccy : String) : Except PyErr (Option ℚ) :=
  if ccy = "PAB" then .ok (some 1)
  else
    match dictLookup usd_to ccy with
    | some (some q) =>
        if q = 0 then .error .zeroDivisionError
        else .ok (some (pyRound6 (1 / q)))
    | some none => .ok none
    | none => .ok none

/-- One iteration of the `for ccy in CURRENCIES` loop of
`build_rows_for_date` (`ccr_test.py` lines 209–226). -/
def buildDailyRow (as_of : Date) (usd_to : Dict (Option ℚ)) (ccy : String) :
    Except PyErr DailyRow := do
  let cc := (dictLookup COUNTRY_MAP ccy).getD ("", "")
  let conv ← convDaily usd_to ccy
  pure { conversion_date := as_of.isoformat
         conversion_year := as_of.year
         conversion_month := as_of.monthName
         country := cc.1
         country_code := cc.2
         currency := ccy
         conversion_rate := conv }

/-- `build_rows_for_date(as_of, usd_to)` (`ccr_test.py` lines 207–227):
one row per tracked currency, in `CURRENCIES` order. -/
def build_rows_for_date (as_of : Date) (usd_to : Dict (Option ℚ)) :
    Except PyErr (List DailyRow) :=
  CURRENCIES.mapM (buildDailyRow as_of usd_to)

/-! ## Month-block flow (`new_ccr.py`) -/

/-- `ym_label(y, m)` (`new_ccr.py` lines 58–59): `"YYYY-MonthName"`. -/
def ym_label (y m : Nat) : String :=
  toString y ++ "-" ++ MONTH_NAMES.getD (m - 1) ""

/-- One element of the `rows` list built by `build_rows_for_current_month`
(`new_ccr.py` lines 131–142).  Lean field names stand for the Python dict
keys with spaces/hyphens: e.g. `ym_currency` is "conversion
year-month-currency". -/
structure MonthRow where
  ym : String
  ym_currency : String
  ym_country : String
  currency_ym : String
  conv_year : String
  conv_month : String
  country : String
  country_code : String
  currency : String
  conversion : Option ℚ
  deriving DecidableEq

/-- The `conv` computation of `build_rows_for_current_month` (`new_ccr.py`
lines 126–130): USD is forced to `1.0`; otherwise
`conv = (1.0 / q) if q else None` where `q = usd_to_c.get(ccy)` — both a
missing key and a zero quote are falsy and yield `None`; a nonzero quote is
inverted without rounding. -/
def convMonthly (usd_to_c : Dict ℚ) (ccy : String) : Option ℚ :=
  if ccy = "USD" then some 1
  else
    match dictLookup usd_to_c ccy with
    | some q => if q = 0 then none else some (1 / q)
    | none => none

/-- `build_rows_for_current_month(usd_to_c)` (`new_ccr.py` lines 114–143),
with `date.today()` passed explicitly.  `label.split("-")` recovers the year
and month-name parts of `ym_label`. -/
def build_rows_for_current_month (today : Date) (usd_to_c : Dict ℚ) : List MonthRow :=
  let label := ym_label today.year today.month
  let year := toString today.year
  let month_name := MONTH_NAMES.getD (today.month - 1) ""
  CURRENCIES.map (fun ccy =>
    let cc := (dictLookup COUNTRY_MAP ccy).getD ("", "")
    { ym := label
      ym_currency := label ++ "-" ++ ccy
      ym_country := label ++ "-" ++ cc.1
      currency_ym := ccy ++ "-" ++ label
      conv_year := year
      conv_month := month_name
      country := cc.1
      country_code := cc.2
      currency := ccy
      conversion := convMonthly usd_to_c ccy })

/-! ## x-rates scraping adapters

HTML extraction is an external collaborator (spec §1): "assume a library
that, given a page, returns zero or more tabular structures of string
cells".  A table is embedded as the list of its rows after the name/rate
column pair has been identified; each row carries the name cell and the
result of `float(str(cell).replace(",", ""))` on the rate cell (`none` when
that parse raises, in which case the source skips the row). -/

/-- One table row seen by the scraping loops. -/
structure XRow where
  name : String
  rate : Option ℚ
  deriving DecidableEq

/-- The shared per-table scraping loop of `_from_xrates` (`ccr_test.py`
lines 141–160) and `fetch_xrates_usd_to_quotes` (`new_ccr.py` lines 79–101):
rows whose name has no `XRATES_NAME_TO_ISO` entry or whose rate cell does
not parse are skipped; recognized rows assign `rates[iso] = value`. -/
def parseXratesTables (tables : List (List XRow)) : Dict ℚ :=
  tables.foldl (fun rates tbl =>
    tbl.foldl (fun rates row =>
      match dictLookup XRATES_NAME_TO_ISO row.name with
      | none => rates
      | some iso =>
          match row.rate with
          | none => rates
          | some v => dictInsert rates iso v) rates) []

/-- `_from_xrates(as_of)` (`ccr_test.py` lines 134–160): returns whatever
the scraping loop produced; there is no emptiness check, so the parse never
raises. -/
def from_xrates (tables : List (List XRow)) : Except PyErr (Dict ℚ) :=
  .ok (parseXratesTables tables)

/-- The `rates["USD"] = 1.0; rates.setdefault("PAB", 1.0)` injection shared
by both flows (`ccr_test.py` lines 202–203, `new_ccr.py` lines 104–106). -/
def injectBasePegged (rates : Dict ℚ) : Dict ℚ :=
  dictSetdefault (dictInsert rates "USD" 1) "PAB" 1

/-- `fetch_xrates_usd_to_quotes()` (`new_ccr.py` lines 61–112), parameterized
by the extracted tables: raises `ValueError` when no table was found, then
parses, injects USD/PAB, and raises `ValueError` when at most one rate
remains. -/
def fetch_xrates_usd_to_quotes (tables : List (List XRow)) : Except PyErr (Dict ℚ) :=
  if tables.isEmpty then .error (.valueError "x-rates: no tables found")
  else
    let rates := injectBasePegged (parseXratesTables tables)
    if rates.length ≤ 1 then .error (.valueError "x-rates: parsed but no usable rates")
    else .ok rates

/-! ## Quote Resolver (`ccr_test.py`, `fetch_usd_quotes_for_date`)

The three providers are parameters: `xr` is the already-computed result of
`_from_xrates(as_of)` (its values may be `None` in principle, matching the
source's `is not None` guards), while `eh` and `fk` abstract
`_from_exchangerate_host(as_of, needed)` and `_from_frankfurter(as_of,
needed)` as functions of the `needed` currency list.  A raised exception is
an `Except.error`; the source wraps none of these calls in `try`. -/

/-- `required = set(CURRENCIES) - {"USD"}` (`ccr_test.py` line 178), kept in
`CURRENCIES` order. -/
def requiredCurrencies : List String := CURRENCIES.filter (fun c => c ≠ "USD")

/-- `{k: float(v) for k, v in xr.items() if v is not None}` (`ccr_test.py`
lines 182 and 185). -/
def nonNullEntries (m : Dict (Option ℚ)) : Dict ℚ :=
  m.filterMap (fun p => p.2.map (fun v => (p.1, v)))

/-- `required.issubset(set(k for k in xr if xr[k] is not None))`
(`ccr_test.py` line 179). -/
def xrCoverageFull (xr : Dict (Option ℚ)) : Bool :=
  requiredCurrencies.all (fun c =>
    match dictLookup xr c with
    | some (some _) => true
    | _ => false)

/-- `missing = required - set(rates.keys())` (`ccr_test.py` lines 186, 193),
kept in `CURRENCIES` order. -/
def missingOf (rates : Dict ℚ) : List String :=
  requiredCurrencies.filter (fun c => ¬ dictContains rates c)

/-- `for k, v in (eh or {}).items(): if v is not None and k not in rates:
rates[k] = float(v)` (`ccr_test.py` lines 190–192 and 197–199). -/
def mergeMissing (rates : Dict ℚ) (m : Dict (Option ℚ)) : Dict ℚ :=
  m.foldl (fun acc p =>
    match p.2 with
    | some v => if dictContains acc p.1 then acc else dictInsert acc p.1 v
    | none => acc) rates

/-- One `if missing: … merge …` block of `fetch_usd_quotes_for_date`
(`ccr_test.py` lines 186–192 for exchangerate.host, 193–199 for
Frankfurter): recompute the missing set, and when non-empty query the
adapter for exactly that set and merge its non-null answers into the keys
still absent. -/
def chainStep (adapter : List String → Except PyErr (Dict (Option ℚ)))
    (rates : Dict ℚ) : Except PyErr (Dict ℚ) :=
  if (missingOf rates).isEmpty then pure rates
  else do
    let m ← adapter (missingOf rates)
    pure (mergeMissing rates m)

/-- The adapter chain of `fetch_usd_quotes_for_date` before the USD/PAB
injection (`ccr_test.py` lines 176–199): accept x-rates alone on full
coverage, otherwise run the two fallback blocks in priority order. -/
def resolveChain (xrm : Dict (Option ℚ))
    (eh fk : List String → Except PyErr (Dict (Option ℚ))) :
    Except PyErr (Dict ℚ) :=
  if xrCoverageFull xrm then .ok (nonNullEntries xrm)
  else chainStep eh (nonNullEntries xrm) >>= chainStep fk

/-- `fetch_usd_quotes_for_date(as_of)` (`ccr_test.py` lines 174–204): the
adapter chain followed by `rates["USD"] = 1.0; rates.setdefault("PAB",
1.0)`. -/
def fetch_usd_quotes_for_date (xr : Except PyErr (Dict (Option ℚ)))
    (eh fk : List String → Except PyErr (Dict (Option ℚ))) :
    Except PyErr (Dict ℚ) := do
  let xrm ← xr
  let rates ← resolveChain xrm eh fk
  pure (injectBasePegged rates)

/-! ## Gap filling and the Multi-Date Collector (`ccr_test.py`) -/

/-- `Series.bfill()` on one column: each missing value is replaced by the
next non-missing value after it (pandas backward fill). -/
def bfill {α : Type} : List (Option α) → List (Option α)
  | [] => []
  | x :: xs => (x.or (xs.findSome? id)) :: bfill xs

/-- The carry pass of `Series.ffill()`: `carry` is the last non-missing
value seen so far. -/
def ffillAux {α : Type} (carry : Option α) : List (Option α) → List (Option α)
  | [] => []
  | x :: xs => (x.or carry) :: ffillAux (x.or carry) xs

/-- `Series.ffill()` on one column: each missing value is replaced by the
last non-missing value before it (pandas forward fill). -/
def ffill {α : Type} (s : List (Option α)) : List (Option α) := ffillAux none s

/-- The per-currency gap fill `lambda s: s.bfill().ffill()` of
`collect_for_dates` (`ccr_test.py` lines 245–248). -/
def gapFillSeries {α : Type} (s : List (Option α)) : List (Option α) := ffill (bfill s)

/-- First non-missing value at position `i` or later. -/
def nextKnown {α : Type} (s : List (Option α)) (i : Nat) : Option α :=
  (s.drop i).findSome? id

/-- Last non-missing value strictly before position `i`. -/
def prevKnown {α : Type} (s : List (Option α)) (i : Nat) : Option α :=
  (s.take i).reverse.findSome? id

/-- Lexicographic `(currency, date)` order used by
`df.sort_values(["currency", "log_date"])`; the date column of the built
rows is the ISO `conversion_date` string. -/
def dailyRowLe (a b : DailyRow) : Prop :=
  a.currency < b.currency ∨ (a.currency = b.currency ∧ a.conversion_date ≤ b.conversion_date)

instance : DecidableRel dailyRowLe := fun a b => by
  unfold dailyRowLe; infer_instance

/-- Gap-fill the `conversion_rate` column of one currency group, keeping the
other columns. -/
def fillGroup (rows : List DailyRow) : List DailyRow :=
  List.zipWith (fun r v => { r with conversion_rate := v }) rows
    (gapFillSeries (rows.map (fun r => r.conversion_rate)))

/-- The gap-filling tail of `collect_for_dates` (`ccr_test.py` lines
243–248): sort by `(currency, date)`, then backward/forward fill the rate
column within each currency group. -/
def fillGapsTable (rows : List DailyRow) : List DailyRow :=
  let sorted := List.insertionSort dailyRowLe rows
  ((sorted.map (fun r => r.currency)).dedup).flatMap
    (fun c => fillGroup (sorted.filter (fun r => r.currency == c)))

/-- The column list `cols` selected by `collect_for_dates` (`ccr_test.py`
line 239). -/
def collectSelectColumns : List String :=
  ["log_date", "conversion_year", "conversion_month", "country", "country_code",
   "currency", "conversion_rate"]

/-- The keys of the row dicts produced by `build_rows_for_date`, which become
the columns of `pd.DataFrame(all_rows)` when `all_rows` is non-empty. -/
def dailyRowColumns : List String :=
  ["conversion_date", "conversion_year", "conversion_month", "country", "country_code",
   "currency", "conversion_rate"]

/-- `pd.DataFrame(all_rows)[cols]`: selecting a column absent from the frame
raises `KeyError` naming it. -/
def dataFrameSelect (available requested : List String) : Except PyErr Unit :=
  match requested.find? (fun c => ¬ available.contains c) with
  | some c => .error (.keyError c)
  | none => .ok ()

/-- The per-date loop of `collect_for_dates` (`ccr_test.py` lines 232–237):
resolve each date (abstracted as `fetch`, the composition of
`fetch_usd_quotes_for_date` with the live adapters), build its rows and
extend `all_rows`.  `liftQuotes` records that the resolver hands the builder
a dict of plain floats. -/
def liftQuotes (m : Dict ℚ) : Dict (Option ℚ) := m.map (fun p => (p.1, some p.2))

def collectRows (fetch : Date → Except PyErr (Dict ℚ)) :
    List Date → Except PyErr (List DailyRow)
  | [] => .ok []
  | d :: ds => do
    let usd_to ← fetch d
    let rows ← build_rows_for_date d (liftQuotes usd_to)
    let rest ← collectRows fetch ds
    pure (rows ++ rest)

/-- `collect_for_dates(dates)` (`ccr_test.py` lines 230–250): build all
rows, select the `cols` columns from the resulting DataFrame (a frame built
from an empty row list has no columns at all), then gap-fill. -/
def collect_for_dates (fetch : Date → Except PyErr (Dict ℚ)) (dates : List Date) :
    Except PyErr (List DailyRow) := do
  let all_rows ← collectRows fetch dates
  let _ ← dataFrameSelect (if all_rows.isEmpty then [] else dailyRowColumns)
    collectSelectColumns
  pure (fillGapsTable all_rows)

/-! ## Dataset mergers -/

/-- A persisted row of the daily dataset handled by `write_append_dedupe`
(`ccr_test.py` lines 253–290); its `log_date` is an ISO date string (the
writer's `to_datetime`/`.dt.date` round trip is the identity on these). -/
structure StoreRow where
  log_date : String
  conversion_year : Int
  conversion_month : String
  country : String
  country_code : String
  currency : String
  conversion_rate : Option ℚ
  deriving DecidableEq

/-- The `(log_date, currency)` composite key of the daily dataset. -/
def storeKey (r : StoreRow) : String × String := (r.log_date, r.currency)

/-- Does some element of `l` share key `k`? -/
def hasStoreKey (k : String × String) (l : List StoreRow) : Bool :=
  l.any (fun y => storeKey y = k)

/-- `drop_duplicates(subset=["log_date", "currency"], keep="last")`
(`ccr_test.py` line 269): keep each row whose key has no later occurrence. -/
def dedupeKeepLast : List StoreRow → List StoreRow
  | [] => []
  | x :: xs =>
      if hasStoreKey (storeKey x) xs then dedupeKeepLast xs
      else x :: dedupeKeepLast xs

/-- `sort_values(["log_date", "currency"])` order (`ccr_test.py` line 270). -/
def storeRowLe (a b : StoreRow) : Prop :=
  a.log_date < b.log_date ∨ (a.log_date = b.log_date ∧ a.currency ≤ b.currency)

instance : DecidableRel storeRowLe := fun a b => by
  unfold storeRowLe; infer_instance

/-- The pure dataset transformation of `write_append_dedupe` (`ccr_test.py`
lines 253–273): concatenate stored and new rows, de-duplicate on
`(log_date, currency)` keeping the last (new) occurrence, and sort by
`(log_date, currency)`. -/
def mergeNewWins (old new : List StoreRow) : List StoreRow :=
  List.insertionSort storeRowLe (dedupeKeepLast (old ++ new))

/-- Does some element of `l` share the `"conversion year-month-currency"`
key `k`? -/
def hasMonthKey (k : String) (l : List MonthRow) : Bool :=
  l.any (fun y => y.ym_currency = k)

/-- `drop_duplicates(subset=[key], keep="first")` (`new_ccr.py` line 163):
keep the first occurrence of each key. -/
def dedupeKeepFirst : List MonthRow → List MonthRow
  | [] => []
  | x :: xs =>
      x :: dedupeKeepFirst (xs.filter (fun y => ¬ y.ym_currency = x.ym_currency))
termination_by l => l.length
decreasing_by
  simp only [List.length_cons]
  exact Nat.lt_succ_of_le (List.length_filter_le _ _)

/-- The pure dataset transformation of `merge_and_write`'s CSV branch when
the stored file has the key column (`new_ccr.py` lines 161–163): old rows
first, then new rows, keeping the first (old) occurrence of each
`"conversion year-month-currency"` key. -/
def mergeInsertIfAbsent (old new : List MonthRow) : List MonthRow :=
  dedupeKeepFirst (old ++ new)

/-- The state of the CSV file as `merge_and_write` observes it
(`new_ccr.py` lines 157–165): missing, unreadable (`pd.read_csv` raised,
swallowed by `except: pass`), or readable with some column list and rows. -/
inductive CsvState where
  | absent
  | unreadable
  | readable (cols : List String) (rows : List MonthRow)

/-- The content `merge_and_write` writes to the CSV (`new_ccr.py` lines
151–168): the merge happens only when the stored file exists, is readable
and has the `"conversion year-month-currency"` column; otherwise `df_out`
stays `df_new.copy()`. -/
def merge_and_write_csv (old : CsvState) (df_new : List MonthRow) : List MonthRow :=
  match old with
  | .absent => df_new
  | .unreadable => df_new
  | .readable cols rows =>
      if cols.contains "conversion year-month-currency" then
        mergeInsertIfAbsent rows df_new
      else df_new

/-! ## Helper lemmas -/

theorem exceptBind_ok {α β : Type} (x : Except PyErr α) (f : α → Except PyErr β) (b : β)
    (h : (x >>= f) = .ok b) : ∃ a, x = .ok a ∧ f a = .ok b := by
  cases x with
  | error e => simp [Bind.bind, Except.bind] at h
  | ok a => exact ⟨a, rfl, by simpa [Bind.bind, Except.bind] using h⟩

theorem exceptBind_error {α β : Type} (e : PyErr) (f : α → Except PyErr β) :
    ((Except.error e : Except PyErr α) >>= f) = .error e := rfl

theorem exceptPure_ok {α : Type} (a b : α)
    (h : (pure a : Except PyErr α) = .ok b) : a = b := by
  simpa [pure, Except.pure] using h

/-- `mapM` over `Except`: every output element is the image of some input
element, and every input element contributes an output element. -/
theorem mapM_ok_spec {α β : Type} (f : α → Except PyErr β) :
    ∀ (l : List α) (rows : List β), l.mapM f = .ok rows →
      (∀ r ∈ rows, ∃ a ∈ l, f a = .ok r) ∧ (∀ a ∈ l, ∃ r ∈ rows, f a = .ok r) := by
  intro l
  induction l with
  | nil =>
      intro rows h
      have : ([] : List β) = rows := exceptPure_ok _ _ (by simpa [List.mapM_nil] using h)
      subst this
      exact ⟨by simp, by simp⟩
  | cons x xs ih =>
      intro rows h
      rw [List.mapM_cons f] at h
      obtain ⟨y, hy, h⟩ := exceptBind_ok _ _ _ h
      obtain ⟨ys, hys, h⟩ := exceptBind_ok _ _ _ h
      have hr : y :: ys = rows := exceptPure_ok _ _ h
      subst hr
      obtain ⟨ih₁, ih₂⟩ := ih ys hys
      constructor
      · intro r hr
        rcases List.mem_cons.mp hr with h' | h'
        · exact ⟨x, by simp, h' ▸ hy⟩
        · obtain ⟨a, ha, hfa⟩ := ih₁ r h'
          exact ⟨a, by simp [ha], hfa⟩
      · intro a ha
        rcases List.mem_cons.mp ha with h' | h'
        · exact ⟨y, by simp, h' ▸ hy⟩
        · obtain ⟨r, hr, hfr⟩ := ih₂ a h'
          exact ⟨r, by simp [hr], hfr⟩

/-- Python's `round(x, 6)` is the identity on integers. -/
theorem pyRound6_intCast (n : ℤ) : pyRound6 (n : ℚ) = (n : ℚ) := by
  have h1 : ((n : ℚ) * 1000000) = ((n * 1000000 : ℤ) : ℚ) := by push_cast; ring
  unfold pyRound6 halfEvenInt
  rw [h1, Int.floor_intCast]
  norm_num

theorem dictLookup_liftQuotes (m : Dict ℚ) (c : String) :
    dictLookup (liftQuotes m) c = (dictLookup m c).map some := by
  induction m with
  | nil => rfl
  | cons p ps ih =>
      by_cases h : p.1 = c <;> simp [liftQuotes, h, ih] <;> simpa [liftQuotes] using ih

theorem dictLookup_injectBasePegged_USD (r : Dict ℚ) :
    dictLookup (injectBasePegged r) "USD" = some 1 := by
  unfold injectBasePegged
  rw [dictLookup_setdefault_ne _ _ _ _ (by decide)]
  exact dictLookup_insert_self r "USD" 1

theorem dictLookup_injectBasePegged_ne (r : Dict ℚ) (c : String)
    (hUSD : c ≠ "USD") (hPAB : c ≠ "PAB") :
    dictLookup (injectBasePegged r) c = dictLookup r c := by
  unfold injectBasePegged
  rw [dictLookup_setdefault_ne _ _ _ _ hPAB, dictLookup_insert_ne _ _ _ _ hUSD]

theorem dictLookup_injectBasePegged_PAB_kept (r : Dict ℚ) (v : ℚ)
    (h : dictLookup r "PAB" = some v) :
    dictLookup (injectBasePegged r) "PAB" = some v := by
  unfold injectBasePegged
  have h' : dictLookup (dictInsert r "USD" 1) "PAB" = some v := by
    rw [dictLookup_insert_ne _ _ _ _ (by decide)]; exact h
  exact dictLookup_setdefault_present _ _ _ _ h'

theorem dictLookup_injectBasePegged_PAB_default (r : Dict ℚ)
    (h : dictLookup r "PAB" = none) :
    dictLookup (injectBasePegged r) "PAB" = some 1 := by
  unfold injectBasePegged
  have h' : dictLookup (dictInsert r "USD" 1) "PAB" = none := by
    rw [dictLookup_insert_ne _ _ _ _ (by decide)]; exact h
  exact dictLookup_setdefault_absent _ _ _ h'

theorem two_le_length_of_two_keys {α : Type} (m : Dict α) (k₁ k₂ : String)
    (h₁ : dictContains m k₁) (h₂ : dictContains m k₂) (hne : k₁ ≠ k₂) :
    2 ≤ m.length := by
  match m with
  | [] => simp [dictContains, dictLookup] at h₁
  | [p] =>
      have e₁ : p.1 = k₁ := by
        by_contra hch; simp [dictContains, hch] at h₁
      have e₂ : p.1 = k₂ := by
        by_contra hch; simp [dictContains, hch] at h₂
      exact absurd (e₁.symm.trans e₂) hne
  | p :: q :: rest => simp [List.length_cons]

theorem injectBasePegged_two_le_length (r : Dict ℚ) :
    2 ≤ (injectBasePegged r).length := by
  have hUSD : dictContains (injectBasePegged r) "USD" := by
    simp [dictContains, dictLookup_injectBasePegged_USD]
  have hPAB : dictContains (injectBasePegged r) "PAB" := by
    cases h : dictLookup r "PAB" with
    | none => simp [dictContains, dictLookup_injectBasePegged_PAB_default r h]
    | some v => simp [dictContains, dictLookup_injectBasePegged_PAB_kept r v h]
  exact two_le_length_of_two_keys _ "USD" "PAB" hUSD hPAB (by decide)

/-- Any successful result of the x-rates month adapter is the parsed table
map with USD/PAB injected. -/
theorem fetch_xrates_ok_shape (tables : List (List XRow)) (m : Dict ℚ)
    (h : fetch_xrates_usd_to_quotes tables = .ok m) :
    m = injectBasePegged (parseXratesTables tables) := by
  unfold fetch_xrates_usd_to_quotes at h
  by_cases he : tables.isEmpty
  · simp [he] at h
  · rw [if_neg he] at h
    by_cases hl : (injectBasePegged (parseXratesTables tables)).length ≤ 1
    · simp [hl] at h
    · rw [if_neg hl] at h
      exact (Except.ok.inj h).symm

/-- Any successful result of the daily resolver is a chain result with
USD/PAB injected. -/
theorem fetch_usd_quotes_ok_shape (xr : Except PyErr (Dict (Option ℚ)))
    (eh fk : List String → Except PyErr (Dict (Option ℚ))) (rates : Dict ℚ)
    (h : fetch_usd_quotes_for_date xr eh fk = .ok rates) :
    ∃ xrm r, xr = .ok xrm ∧ resolveChain xrm eh fk = .ok r ∧
      rates = injectBasePegged r := by
  unfold fetch_usd_quotes_for_date at h
  obtain ⟨xrm, hxr, h⟩ := exceptBind_ok _ _ _ h
  obtain ⟨r, hr, h⟩ := exceptBind_ok _ _ _ h
  exact ⟨xrm, r, hxr, hr, (exceptPure_ok _ _ h).symm⟩

/-! ## C10 -/

/-- C10: when the stored CSV is present and readable but lacks the
`"conversion year-month-currency"` column, `merge_and_write` writes only the
new rows, discarding every previously stored row. -/
theorem C10_missing_key_column_discards_old (cols : List String)
    (rows df_new : List MonthRow)
    (h : cols.contains "conversion year-month-currency" = false) :
    merge_and_write_csv (.readable cols rows) df_new = df_new := by
  simp only [merge_and_write_csv]
  rw [if_neg (by rw [h]; simp)]

/-- Witness for C10 at a concrete stored file whose columns lack the key. -/
theorem C10_missing_key_column_discards_old_witness :
    merge_and_write_csv (.readable ["currency"] []) [] = [] :=
  C10_missing_key_column_discards_old ["currency"] [] [] (by decide)

/-! ## C9 -/

/-- Counterexample for C9: a provider response from which the extraction
library yields no table at all gives an empty parse, yet
`fetch_xrates_usd_to_quotes` raises `ValueError` instead of returning the
empty map — so a sparse/empty parse can be turned into a raised error. -/
theorem C9_counterexample_no_tables_raises :
    fetch_xrates_usd_to_quotes [] = .error (.valueError "x-rates: no tables found") := rfl

/-- C9 (amended): when at least one table is extracted, the month-flow
adapter returns its (possibly empty or partial) usable-rate map as a normal
result — its post-injection sanity check can never fire because USD and PAB
are always injected; the daily-flow adapter `_from_xrates` returns its
(possibly empty) parse for every response, never raising.  Only a response
with no tables at all makes the month-flow adapter raise. -/
theorem C9_sparse_parse_is_normal_result :
    (∀ tables : List (List XRow), tables ≠ [] →
      fetch_xrates_usd_to_quotes tables =
        .ok (injectBasePegged (parseXratesTables tables))) ∧
    (∀ tables : List (List XRow), from_xrates tables = .ok (parseXratesTables tables)) := by
  constructor
  · intro tables ht
    have hne : tables.isEmpty = false := by
      cases tables with
      | nil => exact absurd rfl ht
      | cons t ts => rfl
    unfold fetch_xrates_usd_to_quotes
    rw [if_neg (by rw [hne]; simp)]
    rw [if_neg (by have := injectBasePegged_two_le_length (parseXratesTables tables); omega)]
  · intro tables
    rfl

/-- Witness for C9 at a concrete response: one table whose only row is
unrecognized parses to an empty map and is returned normally. -/
theorem C9_sparse_parse_is_normal_result_witness :
    fetch_xrates_usd_to_quotes [[⟨"Turkish Lira", some 41⟩]] =
      .ok (injectBasePegged (parseXratesTables [[⟨"Turkish Lira", some 41⟩]])) :=
  C9_sparse_parse_is_normal_result.1 [[⟨"Turkish Lira", some 41⟩]] (by simp)

/-! ## C2 -/

/-- Counterexample for C2: a present, non-null, zero quote makes
`build_rows_for_date` raise `ZeroDivisionError` (`1 / float(0.0)`), where
the claim requires a null rate and no division error. -/
theorem C2_counterexample_zero_quote_raises :
    build_rows_for_date ⟨2024, 1, 2⟩ [("ARS", some 0)] = .error .zeroDivisionError := by
  rfl

/-- C2 (amended): for a tracked currency that is neither the base nor the
pegged currency, the daily builder inverts a present non-null nonzero quote
`q` to `round(1/q, 6)`, yields null for an absent or null quote, but raises
`ZeroDivisionError` on a zero quote; the month builder inverts a present
nonzero quote to `1/q` without rounding and yields null (without error) for
a zero or absent quote. -/
theorem C2_inversion_semantics (m : Dict (Option ℚ)) (mm : Dict ℚ) (c : String)
    (hPAB : c ≠ "PAB") (hUSD : c ≠ "USD") :
    (∀ q : ℚ, dictLookup m c = some (some q) → q ≠ 0 →
      convDaily m c = .ok (some (pyRound6 (1 / q)))) ∧
    (dictLookup m c = some (some 0) → convDaily m c = .error .zeroDivisionError) ∧
    (dictLookup m c = some none → convDaily m c = .ok none) ∧
    (dictLookup m c = none → convDaily m c = .ok none) ∧
    (∀ q : ℚ, dictLookup mm c = some q → q ≠ 0 → convMonthly mm c = some (1 / q)) ∧
    (dictLookup mm c = some 0 → convMonthly mm c = none) ∧
    (dictLookup mm c = none → convMonthly mm c = none) := by
  refine ⟨?_, ?_, ?_, ?_, ?_, ?_, ?_⟩
  · intro q hq hq0
    simp [convDaily, hPAB, hq, hq0]
  · intro hq
    simp [convDaily, hPAB, hq]
  · intro hq
    simp [convDaily, hPAB, hq]
  · intro hq
    simp [convDaily, hPAB, hq]
  · intro q hq hq0
    simp [convMonthly, hUSD, hq, hq0]
  · intro hq
    simp [convMonthly, hUSD, hq]
  · intro hq
    simp [convMonthly, hUSD, hq]

/-- Witness for C2 at concrete quote maps: EUR quote `1/2` gives daily rate
`round(2, 6) = 2` and EUR quote `4` gives monthly rate `1/4`. -/
theorem C2_inversion_semantics_witness :
    convDaily [("EUR", some (1/2))] "EUR" = .ok (some 2) ∧
    convMonthly [("EUR", 4)] "EUR" = some (1/4) := by
  have h := C2_inversion_semantics [("EUR", some (1/2))] [("EUR", 4)] "EUR"
    (by decide) (by decide)
  refine ⟨?_, ?_⟩
  · have h2 := h.1 (1/2) (by simp) (by norm_num)
    rw [h2]
    have h3 : (1 : ℚ) / (1 / 2) = ((2 : ℤ) : ℚ) := by norm_num
    rw [h3, pyRound6_intCast]
    norm_num
  · have h2 := h.2.2.2.2.1 4 (by simp) (by norm_num)
    rw [h2]

/-! ## C4 -/

/-- Counterexample for C4: when the first adapter fails (retries exhausted),
the resolver propagates the failure out instead of catching it and
continuing with the remaining adapters. -/
theorem C4_counterexample_failure_propagates :
    fetch_usd_quotes_for_date
      (.error (.runtimeError "All retries failed"))
      (fun _ => .ok []) (fun _ => .ok [])
      = .error (.runtimeError "All retries failed") := rfl

theorem chainStep_error (a : List String → Except PyErr (Dict (Option ℚ)))
    (rates : Dict ℚ) (e : PyErr)
    (hm : (missingOf rates).isEmpty = false) (ha : a (missingOf rates) = .error e) :
    chainStep a rates = .error e := by
  unfold chainStep
  rw [if_neg (by rw [hm]; simp), ha]
  rfl

theorem chainStep_ok_merge (a : List String → Except PyErr (Dict (Option ℚ)))
    (rates : Dict ℚ) (m : Dict (Option ℚ))
    (hm : (missingOf rates).isEmpty = false) (ha : a (missingOf rates) = .ok m) :
    chainStep a rates = .ok (mergeMissing rates m) := by
  unfold chainStep
  rw [if_neg (by rw [hm]; simp), ha]
  rfl

/-- C4 (amended): an adapter failure is not caught by the resolver: a raised
error from x-rates, from exchangerate.host (when queried), or from
Frankfurter (when queried) propagates out of `fetch_usd_quotes_for_date`;
the chain degrades only through adapters returning partial results without
raising. -/
theorem C4_adapter_failures_propagate :
    (∀ (e : PyErr) (eh fk : List String → Except PyErr (Dict (Option ℚ))),
      fetch_usd_quotes_for_date (.error e) eh fk = .error e) ∧
    (∀ (xrm : Dict (Option ℚ)) (e : PyErr)
        (eh fk : List String → Except PyErr (Dict (Option ℚ))),
      xrCoverageFull xrm = false →
      missingOf (nonNullEntries xrm) ≠ [] →
      eh (missingOf (nonNullEntries xrm)) = .error e →
      fetch_usd_quotes_for_date (.ok xrm) eh fk = .error e) ∧
    (∀ (xrm ehm : Dict (Option ℚ)) (e : PyErr)
        (eh fk : List String → Except PyErr (Dict (Option ℚ))),
      xrCoverageFull xrm = false →
      missingOf (nonNullEntries xrm) ≠ [] →
      eh (missingOf (nonNullEntries xrm)) = .ok ehm →
      missingOf (mergeMissing (nonNullEntries xrm) ehm) ≠ [] →
      fk (missingOf (mergeMissing (nonNullEntries xrm) ehm)) = .error e →
      fetch_usd_quotes_for_date (.ok xrm) eh fk = .error e) := by
  refine ⟨fun e eh fk => rfl, ?_, ?_⟩
  · intro xrm e eh fk hcov hmiss heh
    have hm : (missingOf (nonNullEntries xrm)).isEmpty = false := by
      cases h : missingOf (nonNullEntries xrm) with
      | nil => exact absurd h hmiss
      | cons a l => rfl
    have hcs : chainStep eh (nonNullEntries xrm) = .error e :=
      chainStep_error _ _ _ hm heh
    unfold fetch_usd_quotes_for_date resolveChain
    simp [Bind.bind, Except.bind, hcov, hcs]
  · intro xrm ehm e eh fk hcov hmiss heh hmiss2 hfk
    have hm : (missingOf (nonNullEntries xrm)).isEmpty = false := by
      cases h : missingOf (nonNullEntries xrm) with
      | nil => exact absurd h hmiss
      | cons a l => rfl
    have hm2 : (missingOf (mergeMissing (nonNullEntries xrm) ehm)).isEmpty = false := by
      cases h : missingOf (mergeMissing (nonNullEntries xrm) ehm) with
      | nil => exact absurd h hmiss2
      | cons a l => rfl
    have hcs1 : chainStep eh (nonNullEntries xrm)
        = .ok (mergeMissing (nonNullEntries xrm) ehm) :=
      chainStep_ok_merge _ _ _ hm heh
    have hcs2 : chainStep fk (mergeMissing (nonNullEntries xrm) ehm) = .error e :=
      chainStep_error _ _ _ hm2 hfk
    unfold fetch_usd_quotes_for_date resolveChain
    simp [Bind.bind, Except.bind, hcov, hcs1, hcs2]

/-- Witness for C4: concrete partial x-rates data with a failing second
adapter makes the resolver raise. -/
theorem C4_adapter_failures_propagate_witness :
    fetch_usd_quotes_for_date (.ok [("EUR", some 1)])
      (fun _ => .error (.valueError "Non-JSON response")) (fun _ => .ok [])
      = .error (.valueError "Non-JSON response") :=
  C4_adapter_failures_propagate.2.1 [("EUR", some 1)] (.valueError "Non-JSON response")
    _ _ (by decide) (by decide) rfl

/-! ## C6 -/

/-- C6: when the x-rates result covers every tracked currency other than the
base, the resolver accepts it exclusively — the final map is the x-rates
non-null entries with USD/PAB policy injection, and the result does not
depend on the lower-priority adapters at all (they are not queried). -/
theorem C6_full_coverage_short_circuits (xrm : Dict (Option ℚ))
    (h : xrCoverageFull xrm = true) :
    (∀ eh fk eh' fk' : List String → Except PyErr (Dict (Option ℚ)),
      fetch_usd_quotes_for_date (.ok xrm) eh fk
        = fetch_usd_quotes_for_date (.ok xrm) eh' fk') ∧
    (∀ eh fk : List String → Except PyErr (Dict (Option ℚ)),
      fetch_usd_quotes_for_date (.ok xrm) eh fk
        = .ok (injectBasePegged (nonNullEntries xrm))) := by
  have key : ∀ eh fk : List String → Except PyErr (Dict (Option ℚ)),
      fetch_usd_quotes_for_date (.ok xrm) eh fk
        = .ok (injectBasePegged (nonNullEntries xrm)) := by
    intro eh fk
    unfold fetch_usd_quotes_for_date resolveChain
    simp [Bind.bind, Except.bind, h, pure, Except.pure]
  exact ⟨fun eh fk eh' fk' => (key eh fk).trans (key eh' fk').symm, key⟩

/-- Witness for C6 at a concrete fully-covering x-rates map. -/
theorem C6_full_coverage_short_circuits_witness :
    fetch_usd_quotes_for_date
      (.ok (requiredCurrencies.map (fun c => (c, some (2 : ℚ)))))
      (fun _ => .error .zeroDivisionError) (fun _ => .error .zeroDivisionError)
      = .ok (injectBasePegged
          (nonNullEntries (requiredCurrencies.map (fun c => (c, some (2 : ℚ)))))) :=
  (C6_full_coverage_short_circuits _ (by decide)).2 _ _

/-! ## C1 -/

theorem build_rows_ok_ne_nil (d : Date) (m : Dict (Option ℚ)) (rows : List DailyRow)
    (h : build_rows_for_date d m = .ok rows) : rows ≠ [] := by
  unfold build_rows_for_date CURRENCIES at h
  rw [List.mapM_cons _] at h
  obtain ⟨y, _, h⟩ := exceptBind_ok _ _ _ h
  obtain ⟨ys, _, h⟩ := exceptBind_ok _ _ _ h
  have := exceptPure_ok _ _ h
  simp [← this]

theorem collectRows_ok_ne_nil (fetch : Date → Except PyErr (Dict ℚ)) (d : Date)
    (ds : List Date) (rows : List DailyRow)
    (h : collectRows fetch (d :: ds) = .ok rows) : rows ≠ [] := by
  unfold collectRows at h
  obtain ⟨usd, _, h⟩ := exceptBind_ok _ _ _ h
  obtain ⟨rs, hrs, h⟩ := exceptBind_ok _ _ _ h
  obtain ⟨rest, _, h⟩ := exceptBind_ok _ _ _ h
  have := exceptPure_ok _ _ h
  have hne := build_rows_ok_ne_nil d (liftQuotes usd) rs hrs
  rw [← this]
  simp [hne]

theorem select_log_date_fails :
    dataFrameSelect dailyRowColumns collectSelectColumns = .error (.keyError "log_date") := by
  rfl

/-- C1: for every non-empty date sequence, `collect_for_dates` never returns
a table; whenever the per-date loop itself succeeds, it fails with the
`KeyError` on `"log_date"` raised by selecting the `cols` column list from a
DataFrame whose rows store their date under `"conversion_date"` — before any
gap-filling. -/
theorem C1_collect_always_keyerror (fetch : Date → Except PyErr (Dict ℚ))
    (dates : List Date) (hne : dates ≠ []) :
    (∀ t, collect_for_dates fetch dates ≠ .ok t) ∧
    (∀ rows, collectRows fetch dates = .ok rows →
      collect_for_dates fetch dates = .error (.keyError "log_date")) := by
  have main : ∀ rows, collectRows fetch dates = .ok rows →
      collect_for_dates fetch dates = .error (.keyError "log_date") := by
    intro rows hcr
    have hrne : rows ≠ [] := by
      cases dates with
      | nil => exact absurd rfl hne
      | cons d ds => exact collectRows_ok_ne_nil fetch d ds rows hcr
    have hre : rows.isEmpty = false := by
      cases rows with
      | nil => exact absurd rfl hrne
      | cons r rs => rfl
    unfold collect_for_dates
    rw [hcr]
    simp [Bind.bind, Except.bind, hre, select_log_date_fails]
  refine ⟨?_, main⟩
  intro t hok
  unfold collect_for_dates at hok
  cases hcr : collectRows fetch dates with
  | error e => rw [hcr] at hok; simp [Bind.bind, Except.bind] at hok
  | ok rows =>
      have := main rows hcr
      unfold collect_for_dates at this
      rw [this] at hok
      exact Except.noConfusion hok

/-- Witness for C1: a single date with an adapter chain that resolves to the
empty quote map still ends in the `"log_date"` `KeyError`. -/
theorem C1_collect_always_keyerror_witness :
    collect_for_dates (fun _ => .ok []) [⟨2023, 1, 1⟩] = .error (.keyError "log_date") := by
  apply (C1_collect_always_keyerror (fun _ => .ok []) [⟨2023, 1, 1⟩] (by simp)).2
  rfl

/-! ## C3 -/

theorem buildDailyRow_ok (d : Date) (m : Dict (Option ℚ)) (c : String) (r : DailyRow)
    (h : buildDailyRow d m c = .ok r) :
    r.currency = c ∧ convDaily m c = .ok r.conversion_rate := by
  unfold buildDailyRow at h
  obtain ⟨conv, hconv, h⟩ := exceptBind_ok _ _ _ h
  have he := exceptPure_ok _ _ h
  constructor
  · rw [← he]
  · rw [← he]
    exact hconv

theorem convDaily_of_lookup_one (m : Dict (Option ℚ)) (c : String) (hc : c ≠ "PAB")
    (h : dictLookup m c = some (some 1)) : convDaily m c = .ok (some 1) := by
  unfold convDaily
  rw [if_neg hc, h]
  show (if (1 : ℚ) = 0 then (Except.error PyErr.zeroDivisionError : Except PyErr (Option ℚ))
      else .ok (some (pyRound6 (1 / 1)))) = .ok (some 1)
  rw [if_neg one_ne_zero]
  have h1 : (1 : ℚ) / 1 = ((1 : ℤ) : ℚ) := by norm_num
  rw [h1, pyRound6_intCast]
  norm_num

theorem convDaily_PAB (m : Dict (Option ℚ)) : convDaily m "PAB" = .ok (some 1) := rfl

/-- Counterexample for C3: an adapter response supplying a PAB quote of `2`
flows through `fetch_xrates_usd_to_quotes` unchanged (`setdefault` does not
override it), and `build_rows_for_current_month` then emits the PAB row with
conversion `1/2`, not `1.0`. -/
theorem C3_counterexample_month_pab_follows_adapter :
    fetch_xrates_usd_to_quotes [[⟨"Panamanian Balboa", some 2⟩]]
      = .ok [("PAB", 2), ("USD", 1)] ∧
    ((build_rows_for_current_month ⟨2025, 10, 8⟩ [("PAB", 2), ("USD", 1)]).map
        (fun r => (r.currency, r.conversion)))
      = [("USD", some 1), ("ARS", none), ("AUD", none), ("BRL", none), ("CAD", none),
         ("CLP", none), ("CNY", none), ("AED", none), ("EUR", none), ("MXN", none),
         ("NZD", none), ("PAB", some (1 / 2)), ("GBP", none)] ∧
    (some ((1 : ℚ) / 2) : Option ℚ) ≠ some 1 := by
  refine ⟨rfl, rfl, ?_⟩
  intro h
  have : (1 : ℚ) / 2 = 1 := Option.some.inj h
  norm_num at this

/-- C3 (amended): in the daily flow, every successfully built row set from a
successful resolve gives USD and PAB a conversion rate of exactly `1.0`
whatever the adapters supplied (the resolver overrides USD, the builder
overrides PAB).  In the month flow, USD rows are always exactly `1.0`, and
the PAB row is `1.0` only when the x-rates parse supplied no PAB quote; a
supplied PAB quote is not overridden. -/
theorem C3_base_and_pegged_rates :
    (∀ (xr : Except PyErr (Dict (Option ℚ)))
        (eh fk : List String → Except PyErr (Dict (Option ℚ)))
        (rates : Dict ℚ) (d : Date) (rows : List DailyRow),
      fetch_usd_quotes_for_date xr eh fk = .ok rates →
      build_rows_for_date d (liftQuotes rates) = .ok rows →
      ((∀ r ∈ rows, (r.currency = "USD" → r.conversion_rate = some 1) ∧
          (r.currency = "PAB" → r.conversion_rate = some 1)) ∧
       (∃ r ∈ rows, r.currency = "USD" ∧ r.conversion_rate = some 1) ∧
       (∃ r ∈ rows, r.currency = "PAB" ∧ r.conversion_rate = some 1))) ∧
    (∀ (m : Dict ℚ) (d : Date), ∀ r ∈ build_rows_for_current_month d m,
      r.currency = "USD" → r.conversion = some 1) ∧
    (∀ (tables : List (List XRow)) (m : Dict ℚ) (d : Date),
      dictLookup (parseXratesTables tables) "PAB" = none →
      fetch_xrates_usd_to_quotes tables = .ok m →
      ∀ r ∈ build_rows_for_current_month d m,
        r.currency = "PAB" → r.conversion = some 1) := by
  refine ⟨?_, ?_, ?_⟩
  · intro xr eh fk rates d rows hfetch hbuild
    obtain ⟨xrm, r0, _, _, hshape⟩ := fetch_usd_quotes_ok_shape xr eh fk rates hfetch
    have hUSD : dictLookup rates "USD" = some 1 := by
      rw [hshape]; exact dictLookup_injectBasePegged_USD r0
    have hUSDlift : dictLookup (liftQuotes rates) "USD" = some (some 1) := by
      rw [dictLookup_liftQuotes, hUSD]; rfl
    have hconvUSD : convDaily (liftQuotes rates) "USD" = .ok (some 1) :=
      convDaily_of_lookup_one _ _ (by decide) hUSDlift
    unfold build_rows_for_date at hbuild
    obtain ⟨hmem, hex⟩ := mapM_ok_spec (buildDailyRow d (liftQuotes rates)) CURRENCIES rows hbuild
    refine ⟨?_, ?_, ?_⟩
    · intro r hr
      obtain ⟨c, _, hfc⟩ := hmem r hr
      obtain ⟨hcur, hconv⟩ := buildDailyRow_ok d _ c r hfc
      constructor
      · intro hrUSD
        rw [hcur] at hrUSD
        rw [hrUSD] at hconv
        rw [hconvUSD] at hconv
        exact (Except.ok.inj hconv).symm
      · intro hrPAB
        rw [hcur] at hrPAB
        rw [hrPAB, convDaily_PAB] at hconv
        exact (Except.ok.inj hconv).symm
    · obtain ⟨r, hr, hfr⟩ := hex "USD" (by simp [CURRENCIES])
      obtain ⟨hcur, hconv⟩ := buildDailyRow_ok d _ _ r hfr
      rw [hconvUSD] at hconv
      exact ⟨r, hr, hcur, (Except.ok.inj hconv).symm⟩
    · obtain ⟨r, hr, hfr⟩ := hex "PAB" (by simp [CURRENCIES])
      obtain ⟨hcur, hconv⟩ := buildDailyRow_ok d _ _ r hfr
      rw [convDaily_PAB] at hconv
      exact ⟨r, hr, hcur, (Except.ok.inj hconv).symm⟩
  · intro m d r hr
    unfold build_rows_for_current_month at hr
    obtain ⟨c, _, hrc⟩ := List.mem_map.mp hr
    have hcur : r.currency = c := by rw [← hrc]
    intro hUSD
    rw [hcur] at hUSD
    rw [← hrc]
    show convMonthly m c = some 1
    rw [hUSD]
    rfl
  · intro tables m d hparse hfetch r hr
    have hm : m = injectBasePegged (parseXratesTables tables) :=
      fetch_xrates_ok_shape tables m hfetch
    have hPAB : dictLookup m "PAB" = some 1 := by
      rw [hm]; exact dictLookup_injectBasePegged_PAB_default _ hparse
    unfold build_rows_for_current_month at hr
    obtain ⟨c, _, hrc⟩ := List.mem_map.mp hr
    have hcur : r.currency = c := by rw [← hrc]
    intro hPABr
    rw [hcur] at hPABr
    rw [← hrc]
    show convMonthly m c = some 1
    rw [hPABr]
    unfold convMonthly
    rw [if_neg (by decide), hPAB]
    show (if (1 : ℚ) = 0 then (none : Option ℚ) else some (1 / 1)) = some 1
    rw [if_neg one_ne_zero]
    norm_num

/-- The daily row set built from the resolved map of a run where every
adapter returned the empty map. -/
def c3WitnessRows : List DailyRow :=
  match build_rows_for_date ⟨2023, 1, 5⟩ (liftQuotes [("USD", 1), ("PAB", 1)]) with
  | .ok rows => rows
  | .error _ => []

/-- Witness for C3 at a concrete run: adapters all answer with the empty
map, the resolver injects USD and PAB, and the built rows carry rate `1.0`
for both. -/
theorem C3_base_and_pegged_rates_witness :
    (∃ r ∈ c3WitnessRows, r.currency = "USD" ∧ r.conversion_rate = some 1) ∧
    (∃ r ∈ c3WitnessRows, r.currency = "PAB" ∧ r.conversion_rate = some 1) := by
  have h := C3_base_and_pegged_rates.1 (.ok []) (fun _ => .ok []) (fun _ => .ok [])
    [("USD", 1), ("PAB", 1)] ⟨2023, 1, 5⟩ c3WitnessRows rfl rfl
  exact ⟨h.2.1, h.2.2⟩

/-! ## C5 -/

theorem mergeMissing_preserves (m : Dict (Option ℚ)) :
    ∀ (rates : Dict ℚ) (c : String) (v : ℚ),
      dictLookup rates c = some v → dictLookup (mergeMissing rates m) c = some v := by
  induction m with
  | nil => intro rates c v h; exact h
  | cons p ps ih =>
      intro rates c v h
      refine ih _ c v ?_
      show dictLookup (match p.2 with
        | some w => if dictContains rates p.1 then rates else dictInsert rates p.1 w
        | none => rates) c = some v
      cases hp : p.2 with
      | none => exact h
      | some w =>
          show dictLookup
            (if dictContains rates p.1 then rates else dictInsert rates p.1 w) c = some v
          by_cases hc : dictContains rates p.1
          · rw [if_pos hc]; exact h
          · rw [if_neg hc]
            by_cases hcp : c = p.1
            · exact absurd (by simp [dictContains, ← hcp, h]) hc
            · rw [dictLookup_insert_ne _ _ _ _ hcp]; exact h

theorem chainStep_preserves (a : List String → Except PyErr (Dict (Option ℚ)))
    (rates r : Dict ℚ) (c : String) (v : ℚ)
    (hc : dictLookup rates c = some v) (h : chainStep a rates = .ok r) :
    dictLookup r c = some v := by
  unfold chainStep at h
  by_cases hm : (missingOf rates).isEmpty
  · rw [if_pos hm] at h
    rw [← exceptPure_ok _ _ h]; exact hc
  · rw [if_neg hm] at h
    obtain ⟨m, _, h⟩ := exceptBind_ok _ _ _ h
    rw [← exceptPure_ok _ _ h]
    exact mergeMissing_preserves m rates c v hc

theorem dictContains_nonNullEntries_of_lookup (m : Dict (Option ℚ)) (c : String) (q : ℚ)
    (h : dictLookup m c = some (some q)) :
    dictContains (nonNullEntries m) c = true := by
  unfold dictLookup at h
  cases hf : m.find? (fun p => p.1 == c) with
  | none => rw [hf] at h; simp at h
  | some p =>
      rw [hf] at h
      have hp2 : p.2 = some q := by simpa using h
      have hpcb := List.find?_some hf
      have hpc : p.1 = c := by simpa using hpcb
      have hmem2 : (c, q) ∈ nonNullEntries m := by
        unfold nonNullEntries
        apply List.mem_filterMap.mpr
        exact ⟨p, List.mem_of_find?_eq_some hf, by simp [hp2, hpc]⟩
      have hfind : ((nonNullEntries m).find? (fun p => p.1 == c)).isSome :=
        List.find?_isSome.mpr ⟨(c, q), hmem2, by simp⟩
      unfold dictContains dictLookup
      cases hf2 : (nonNullEntries m).find? (fun p => p.1 == c) with
      | none => rw [hf2] at hfind; simp at hfind
      | some p2 => rfl

/-- Full x-rates coverage means no required currency is missing from its
non-null entries, so neither fallback block queries its adapter. -/
theorem xrCoverageFull_missing_isEmpty (xrm : Dict (Option ℚ))
    (h : xrCoverageFull xrm = true) :
    (missingOf (nonNullEntries xrm)).isEmpty = true := by
  have hall := List.all_eq_true.mp h
  rw [List.isEmpty_iff]
  apply List.filter_eq_nil_iff.mpr
  intro c hc
  have hcv := hall c hc
  cases hl : dictLookup xrm c with
  | none => rw [hl] at hcv; simp at hcv
  | some o =>
      cases o with
      | none => rw [hl] at hcv; simp at hcv
      | some q =>
          have := dictContains_nonNullEntries_of_lookup xrm c q hl
          simp [this]

theorem chainStep_of_empty_missing (a : List String → Except PyErr (Dict (Option ℚ)))
    (rates : Dict ℚ) (h : (missingOf rates).isEmpty = true) :
    chainStep a rates = .ok rates := by
  unfold chainStep
  rw [if_pos h]
  rfl

theorem resolveChain_preserves (xrm : Dict (Option ℚ))
    (eh fk : List String → Except PyErr (Dict (Option ℚ))) (r : Dict ℚ)
    (c : String) (v : ℚ)
    (hc : dictLookup (nonNullEntries xrm) c = some v)
    (h : resolveChain xrm eh fk = .ok r) : dictLookup r c = some v := by
  unfold resolveChain at h
  by_cases hcov : xrCoverageFull xrm
  · rw [if_pos hcov] at h
    rw [← Except.ok.inj h]; exact hc
  · rw [if_neg hcov] at h
    obtain ⟨r1, h1, h2⟩ := exceptBind_ok _ _ _ h
    exact chainStep_preserves fk r1 r c v (chainStep_preserves eh _ r1 c v hc h1) h2

/-- Counterexample for C5: in the claim's own example run (adapter A returns
EUR only, adapter B returns EUR and GBP for the missing set, the third
adapter returns nothing) the resolved map also contains the pegged entry
`PAB ↦ 1.0` injected by `setdefault`, so it is not the claimed
`{EUR: 0.91, GBP: 0.78, BASE: 1.0}`. -/
theorem C5_counterexample_example_map :
    fetch_usd_quotes_for_date (.ok [("EUR", some (91/100))])
      (fun _ => .ok [("EUR", some (912/1000)), ("GBP", some (78/100))])
      (fun _ => .ok [])
      = .ok [("EUR", 91/100), ("GBP", 78/100), ("USD", 1), ("PAB", 1)] ∧
    dictLookup [("EUR", (91:ℚ)/100), ("GBP", 78/100), ("USD", 1), ("PAB", 1)] "PAB"
      = some 1 ∧
    ([("EUR", (91:ℚ)/100), ("GBP", 78/100), ("USD", 1), ("PAB", 1)] : Dict ℚ)
      ≠ [("EUR", 91/100), ("GBP", 78/100), ("USD", 1)] := by
  refine ⟨rfl, rfl, ?_⟩
  intro h
  exact absurd (congrArg List.length h) (by decide)

/-- C5 (amended): the resolved map never replaces a (non-base) currency
value obtained from a higher-priority adapter with a lower-priority
adapter's value, for every pair of chain stages: the merge loop itself
inserts only into absent keys, so any already-resolved value — whichever
adapter supplied it — survives every later merge; an x-rates value survives
the whole resolve; a value held after the exchangerate.host stage (sourced
from x-rates or from exchangerate.host) survives the Frankfurter merge and
the policy injection; each lower-priority adapter influences the result
only through its answer for the currencies still missing at its turn; and
the claim's example resolves to
`{EUR: 0.91, GBP: 0.78, USD: 1.0, PAB: 1.0}` — the claimed map plus the
`setdefault`-injected pegged entry. -/
theorem C5_priority_merge_semantics :
    (∀ (rates : Dict ℚ) (m : Dict (Option ℚ)) (c : String) (v : ℚ),
      dictLookup rates c = some v →
      dictLookup (mergeMissing rates m) c = some v) ∧
    (∀ (xrm : Dict (Option ℚ))
        (eh fk : List String → Except PyErr (Dict (Option ℚ)))
        (rates : Dict ℚ) (c : String) (v : ℚ),
      c ≠ "USD" →
      dictLookup (nonNullEntries xrm) c = some v →
      fetch_usd_quotes_for_date (.ok xrm) eh fk = .ok rates →
      dictLookup rates c = some v) ∧
    (∀ (xrm : Dict (Option ℚ))
        (eh fk : List String → Except PyErr (Dict (Option ℚ)))
        (rates₁ rates : Dict ℚ) (c : String) (v : ℚ),
      c ≠ "USD" →
      chainStep eh (nonNullEntries xrm) = .ok rates₁ →
      dictLookup rates₁ c = some v →
      fetch_usd_quotes_for_date (.ok xrm) eh fk = .ok rates →
      dictLookup rates c = some v) ∧
    (∀ (xrm : Dict (Option ℚ))
        (eh eh' fk fk' : List String → Except PyErr (Dict (Option ℚ))),
      eh (missingOf (nonNullEntries xrm)) = eh' (missingOf (nonNullEntries xrm)) →
      (∀ rates₁ : Dict ℚ, chainStep eh (nonNullEntries xrm) = .ok rates₁ →
        fk (missingOf rates₁) = fk' (missingOf rates₁)) →
      fetch_usd_quotes_for_date (.ok xrm) eh fk
        = fetch_usd_quotes_for_date (.ok xrm) eh' fk') ∧
    (fetch_usd_quotes_for_date (.ok [("EUR", some (91/100))])
      (fun _ => .ok [("EUR", some (912/1000)), ("GBP", some (78/100))])
      (fun _ => .ok [])
      = .ok [("EUR", 91/100), ("GBP", 78/100), ("USD", 1), ("PAB", 1)]) := by
  refine ⟨?_, ?_, ?_, ?_, rfl⟩
  · intro rates m c v h
    exact mergeMissing_preserves m rates c v h
  · intro xrm eh fk rates c v hcUSD hl hfetch
    obtain ⟨xrm', r0, hx, hchain, hshape⟩ := fetch_usd_quotes_ok_shape _ _ _ _ hfetch
    have hxe : xrm = xrm' := Except.ok.inj hx
    rw [← hxe] at hchain
    have hr0 : dictLookup r0 c = some v :=
      resolveChain_preserves xrm eh fk r0 c v hl hchain
    rw [hshape]
    by_cases hPAB : c = "PAB"
    · rw [hPAB] at hr0 ⊢
      exact dictLookup_injectBasePegged_PAB_kept r0 v hr0
    · rw [dictLookup_injectBasePegged_ne r0 c hcUSD hPAB]
      exact hr0
  · intro xrm eh fk rates₁ rates c v hcUSD hstep hl hfetch
    obtain ⟨xrm', r0, hx, hchain, hshape⟩ := fetch_usd_quotes_ok_shape _ _ _ _ hfetch
    have hxe : xrm = xrm' := Except.ok.inj hx
    rw [← hxe] at hchain
    have hr0 : dictLookup r0 c = some v := by
      unfold resolveChain at hchain
      by_cases hcov : xrCoverageFull xrm
      · rw [if_pos hcov] at hchain
        have hie := xrCoverageFull_missing_isEmpty xrm hcov
        have hse : chainStep eh (nonNullEntries xrm) = .ok (nonNullEntries xrm) :=
          chainStep_of_empty_missing eh _ hie
        rw [hse] at hstep
        have h1 : nonNullEntries xrm = rates₁ := Except.ok.inj hstep
        have h2 : nonNullEntries xrm = r0 := Except.ok.inj hchain
        rw [← h2, h1]
        exact hl
      · rw [if_neg hcov] at hchain
        obtain ⟨r1, h1, h2⟩ := exceptBind_ok _ _ _ hchain
        have he : rates₁ = r1 := Except.ok.inj (hstep.symm.trans h1)
        rw [← he] at h2
        exact chainStep_preserves fk rates₁ r0 c v hl h2
    rw [hshape]
    by_cases hPAB : c = "PAB"
    · rw [hPAB] at hr0 ⊢
      exact dictLookup_injectBasePegged_PAB_kept r0 v hr0
    · rw [dictLookup_injectBasePegged_ne r0 c hcUSD hPAB]
      exact hr0
  · intro xrm eh eh' fk fk' h1 h2
    have hres : resolveChain xrm eh fk = resolveChain xrm eh' fk' := by
      unfold resolveChain
      by_cases hcov : xrCoverageFull xrm
      · rw [if_pos hcov, if_pos hcov]
      · rw [if_neg hcov, if_neg hcov]
        have hstep1 : chainStep eh (nonNullEntries xrm)
            = chainStep eh' (nonNullEntries xrm) := by
          unfold chainStep
          by_cases hm : (missingOf (nonNullEntries xrm)).isEmpty
          · rw [if_pos hm, if_pos hm]
          · rw [if_neg hm, if_neg hm, h1]
        rw [← hstep1]
        cases hr1 : chainStep eh (nonNullEntries xrm) with
        | error e => rfl
        | ok rates₁ =>
            have hstep2 : chainStep fk rates₁ = chainStep fk' rates₁ := by
              unfold chainStep
              by_cases hm2 : (missingOf rates₁).isEmpty
              · rw [if_pos hm2, if_pos hm2]
              · rw [if_neg hm2, if_neg hm2, h2 rates₁ hr1]
            show Except.ok rates₁ >>= chainStep fk = Except.ok rates₁ >>= chainStep fk'
            simp [Bind.bind, Except.bind, hstep2]
    unfold fetch_usd_quotes_for_date
    simp only [Bind.bind, Except.bind]
    rw [hres]

/-- Witness for C5 at a concrete run exercising a lower-priority pair:
x-rates supplies only EUR, exchangerate.host supplies GBP ↦ 3, and
Frankfurter answers with a conflicting GBP ↦ 7 (plus CAD ↦ 4); the
resolved map keeps the exchangerate.host value GBP ↦ 3. -/
theorem C5_priority_merge_semantics_witness :
    dictLookup [("EUR", (2 : ℚ)), ("GBP", 3), ("CAD", 4), ("USD", 1), ("PAB", 1)] "GBP"
      = some 3 :=
  C5_priority_merge_semantics.2.2.1 [("EUR", some 2)]
    (fun _ => .ok [("GBP", some 3)])
    (fun _ => .ok [("GBP", some 7), ("CAD", some 4)])
    [("EUR", 2), ("GBP", 3)]
    [("EUR", 2), ("GBP", 3), ("CAD", 4), ("USD", 1), ("PAB", 1)]
    "GBP" 3 (by decide) rfl rfl rfl

/-! ## C7 -/

theorem findSome?_id_cons {α : Type} (x : Option α) (xs : List (Option α)) :
    (x :: xs).findSome? id = x.or (xs.findSome? id) := by
  cases x <;> simp [List.findSome?_cons, Option.or]

theorem findSome?_id_singleton {α : Type} (x : Option α) :
    ([x] : List (Option α)).findSome? id = x := by
  cases x <;> rfl

@[simp] theorem length_ffillAux {α : Type} (s : List (Option α)) :
    ∀ c : Option α, (ffillAux c s).length = s.length := by
  induction s with
  | nil => intro c; rfl
  | cons x xs ih => intro c; simp [ffillAux, ih]

@[simp] theorem length_bfill {α : Type} (s : List (Option α)) :
    (bfill s).length = s.length := by
  induction s with
  | nil => rfl
  | cons x xs ih => simp [bfill, ih]

theorem ffillAux_getElem? {α : Type} (s : List (Option α)) :
    ∀ (c : Option α) (i : Nat),
      (ffillAux c s)[i]? =
        if i < s.length then some ((((s.take (i + 1)).reverse).findSome? id).or c)
        else none := by
  induction s with
  | nil => intro c i; simp [ffillAux]
  | cons x xs ih =>
      intro c i
      cases i with
      | zero =>
          simp only [ffillAux, List.getElem?_cons_zero, List.length_cons,
            List.take_succ, List.take_nil]
          rw [if_pos (Nat.succ_pos _)]
          simp [findSome?_id_singleton]
      | succ i =>
          simp only [ffillAux, List.getElem?_cons_succ, List.length_cons]
          rw [ih (x.or c) i]
          have htake : (x :: xs).take (i + 1 + 1) = x :: xs.take (i + 1) := rfl
          rw [htake]
          by_cases hi : i < xs.length
          · rw [if_pos hi, if_pos (by omega)]
            rw [List.reverse_cons, List.findSome?_append, findSome?_id_singleton,
              Option.or_assoc]
          · rw [if_neg hi, if_neg (by omega)]

theorem ffill_getElem? {α : Type} (s : List (Option α)) (i : Nat) (h : i < s.length) :
    (ffill s)[i]? = some (((s.take (i + 1)).reverse).findSome? id) := by
  unfold ffill
  rw [ffillAux_getElem? s none i, if_pos h]
  simp

theorem bfill_getElem? {α : Type} (s : List (Option α)) :
    ∀ i : Nat, (bfill s)[i]? = if i < s.length then some (nextKnown s i) else none := by
  induction s with
  | nil => intro i; simp [bfill, nextKnown]
  | cons x xs ih =>
      intro i
      cases i with
      | zero =>
          simp only [bfill, List.getElem?_cons_zero, List.length_cons]
          rw [if_pos (Nat.succ_pos _)]
          unfold nextKnown
          rw [List.drop_zero, findSome?_id_cons]
      | succ i =>
          simp only [bfill, List.getElem?_cons_succ, List.length_cons]
          rw [ih i]
          have hnext : nextKnown (x :: xs) (i + 1) = nextKnown xs i := rfl
          by_cases hi : i < xs.length
          · rw [if_pos hi, if_pos (by omega), hnext]
          · rw [if_neg hi, if_neg (by omega)]

theorem nextKnown_succ {α : Type} (s : List (Option α)) (i : Nat) (h : i < s.length) :
    nextKnown s i = (s.get ⟨i, h⟩).or (nextKnown s (i + 1)) := by
  unfold nextKnown
  rw [List.drop_eq_getElem_cons h, findSome?_id_cons]
  rfl

/-- Backward fill then forward fill: the prefix maxima agree between the
filled and the original series wherever nothing is known from `i` on. -/
theorem bfill_prefix_lastKnown {α : Type} (s : List (Option α)) :
    ∀ i : Nat, i ≤ s.length → nextKnown s i = none →
      (((bfill s).take i).reverse.findSome? id) = ((s.take i).reverse.findSome? id) := by
  intro i
  induction i with
  | zero => intro _ _; rfl
  | succ i ih =>
      intro hle hnone
      have hi : i < s.length := by omega
      have hbi : (bfill s)[i]? = some (nextKnown s i) := by
        rw [bfill_getElem? s i, if_pos hi]
      have hsi : s[i]? = some (s.get ⟨i, hi⟩) := by
        rw [List.getElem?_eq_getElem hi]; rfl
      rw [List.take_succ, List.take_succ, hbi, hsi]
      simp only [Option.toList_some, List.reverse_append, List.reverse_cons,
        List.reverse_nil, List.nil_append, List.singleton_append,
        findSome?_id_cons]
      have hnexti : nextKnown s i = (s.get ⟨i, hi⟩).or none := by
        rw [nextKnown_succ s i hi, hnone]
      rw [hnexti, Option.or_none]
      cases hx : s.get ⟨i, hi⟩ with
      | some v => simp [Option.or]
      | none =>
          simp only [Option.none_or]
          exact ih (by omega) (by rw [nextKnown_succ s i hi, hnone, hx]; rfl)

/-- C7: after `bfill().ffill()` on a currency's date-ordered rate series,
every position holds the next known value at or after it, or failing that
the last known value before it; hence no null remains when the series has
any known value, and an entirely-null series is unchanged. -/
theorem C7_gap_fill_semantics (s : List (Option ℚ)) :
    (∀ i : Nat, i < s.length →
      (gapFillSeries s)[i]? = some ((nextKnown s i).or (prevKnown s i))) ∧
    ((∃ x ∈ s, x ≠ none) → ∀ y ∈ gapFillSeries s, y ≠ none) ∧
    ((∀ x ∈ s, x = none) → gapFillSeries s = s) := by
  have hlen : (gapFillSeries s).length = s.length := by
    unfold gapFillSeries ffill
    rw [length_ffillAux, length_bfill]
  have main : ∀ i : Nat, i < s.length →
      (gapFillSeries s)[i]? = some ((nextKnown s i).or (prevKnown s i)) := by
    intro i h
    unfold gapFillSeries
    rw [ffill_getElem? (bfill s) i (by rw [length_bfill]; exact h)]
    have hbi : (bfill s)[i]? = some (nextKnown s i) := by
      rw [bfill_getElem? s i, if_pos h]
    rw [List.take_succ, hbi]
    simp only [Option.toList_some, List.reverse_append, List.reverse_cons,
      List.reverse_nil, List.nil_append, List.singleton_append, findSome?_id_cons]
    cases hn : nextKnown s i with
    | some v => rfl
    | none =>
        rw [Option.none_or, Option.none_or]
        rw [bfill_prefix_lastKnown s i (Nat.le_of_lt h) hn]
        rfl
  refine ⟨main, ?_, ?_⟩
  · intro hx y hy
    obtain ⟨x, hxs, hxn⟩ := hx
    obtain ⟨j, hj⟩ := List.mem_iff_getElem?.mp hxs
    obtain ⟨i, hi⟩ := List.mem_iff_getElem?.mp hy
    have hilt : i < s.length := by
      by_contra hge
      rw [List.getElem?_eq_none (by rw [hlen]; omega)] at hi
      exact Option.noConfusion hi
    rw [main i hilt] at hi
    have hy' : y = (nextKnown s i).or (prevKnown s i) := (Option.some.inj hi).symm
    intro hnone
    rw [hy'] at hnone
    obtain ⟨hn, hp⟩ := Option.or_eq_none.mp hnone
    by_cases hij : i ≤ j
    · have : x ∈ s.drop i := by
        apply List.mem_iff_getElem?.mpr
        refine ⟨j - i, ?_⟩
        rw [List.getElem?_drop]
        rw [show i + (j - i) = j by omega]
        exact hj
      exact hxn (List.findSome?_eq_none_iff.mp hn x this)
    · have : x ∈ (s.take i).reverse := by
        rw [List.mem_reverse]
        apply List.mem_iff_getElem?.mpr
        refine ⟨j, ?_⟩
        rw [List.getElem?_take]
        rw [if_pos (by omega)]
        exact hj
      exact hxn (List.findSome?_eq_none_iff.mp hp x this)
  · intro hall
    apply List.ext_getElem?
    intro i
    by_cases h : i < s.length
    · rw [main i h]
      have hn : nextKnown s i = none := by
        apply List.findSome?_eq_none_iff.mpr
        intro x hx
        exact hall x (List.mem_of_mem_drop hx)
      have hp : prevKnown s i = none := by
        apply List.findSome?_eq_none_iff.mpr
        intro x hx
        exact hall x (List.mem_of_mem_take (List.mem_reverse.mp hx))
      rw [hn, hp]
      rw [List.getElem?_eq_getElem h]
      have : s.get ⟨i, h⟩ = none := hall _ (List.getElem_mem h)
      rw [show s[i] = s.get ⟨i, h⟩ from rfl, this]
      rfl
    · rw [List.getElem?_eq_none (by rw [hlen]; omega),
        List.getElem?_eq_none (by omega)]

/-- Witness for C7: `[none, some 2, none]` gap-fills at position 0 to the
next known value, and an all-null series is unchanged. -/
theorem C7_gap_fill_semantics_witness :
    (gapFillSeries [none, some (2 : ℚ), none])[0]? =
      some ((nextKnown [none, some (2 : ℚ), none] 0).or
        (prevKnown [none, some (2 : ℚ), none] 0)) ∧
    gapFillSeries ([none, none] : List (Option ℚ)) = [none, none] :=
  ⟨(C7_gap_fill_semantics _).1 0 (by simp),
   (C7_gap_fill_semantics _).2.2 (by simp)⟩

/-! ## C8 -/

theorem hasStoreKey_append (k : String × String) (l₁ l₂ : List StoreRow) :
    hasStoreKey k (l₁ ++ l₂) = (hasStoreKey k l₁ || hasStoreKey k l₂) := by
  simp [hasStoreKey, List.any_append]

theorem mem_dedupeKeepLast (l : List StoreRow) : ∀ y ∈ dedupeKeepLast l, y ∈ l := by
  induction l with
  | nil => intro y hy; simpa [dedupeKeepLast] using hy
  | cons x xs ih =>
      intro y hy
      unfold dedupeKeepLast at hy
      by_cases h : hasStoreKey (storeKey x) xs
      · rw [if_pos h] at hy
        exact List.mem_cons_of_mem x (ih y hy)
      · rw [if_neg h] at hy
        rcases List.mem_cons.mp hy with h' | h'
        · exact h' ▸ List.mem_cons_self x xs
        · exact List.mem_cons_of_mem x (ih y h')

theorem dedupeKeepLast_pairwise (l : List StoreRow) :
    (dedupeKeepLast l).Pairwise (fun a b => storeKey a ≠ storeKey b) := by
  induction l with
  | nil => simp [dedupeKeepLast]
  | cons x xs ih =>
      unfold dedupeKeepLast
      by_cases h : hasStoreKey (storeKey x) xs
      · rw [if_pos h]; exact ih
      · rw [if_neg h]
        refine List.Pairwise.cons ?_ ih
        intro y hy
        have hf : hasStoreKey (storeKey x) xs = false := by simpa using h
        have hall := List.any_eq_false.mp hf
        have := hall y (mem_dedupeKeepLast xs y hy)
        intro hkey
        exact this (by simp [hkey])

theorem dedupeKeepLast_eq_self (l : List StoreRow)
    (h : l.Pairwise (fun a b => storeKey a ≠ storeKey b)) : dedupeKeepLast l = l := by
  induction l with
  | nil => rfl
  | cons x xs ih =>
      have hx := List.pairwise_cons.mp h
      have hf : hasStoreKey (storeKey x) xs = false := by
        apply List.any_eq_false.mpr
        intro y hy
        simp [(hx.1 y hy).symm]
      unfold dedupeKeepLast
      rw [if_neg (by simp [hf]), ih hx.2]

theorem dedupeKeepLast_append (X N : List StoreRow) :
    dedupeKeepLast (X ++ N) =
      (dedupeKeepLast X).filter (fun x => !(hasStoreKey (storeKey x) N))
        ++ dedupeKeepLast N := by
  induction X with
  | nil => simp [dedupeKeepLast]
  | cons x xs ih =>
      have lhs_eq : dedupeKeepLast ((x :: xs) ++ N) =
          if hasStoreKey (storeKey x) (xs ++ N) then dedupeKeepLast (xs ++ N)
          else x :: dedupeKeepLast (xs ++ N) := rfl
      have rhs_eq : dedupeKeepLast (x :: xs) =
          if hasStoreKey (storeKey x) xs then dedupeKeepLast xs
          else x :: dedupeKeepLast xs := rfl
      rw [lhs_eq, rhs_eq, hasStoreKey_append]
      by_cases h1 : hasStoreKey (storeKey x) xs
      · rw [if_pos (by simp [h1]), if_pos h1]
        exact ih
      · have h1f : hasStoreKey (storeKey x) xs = false := by simpa using h1
        rw [if_neg h1, h1f, Bool.false_or]
        by_cases h2 : hasStoreKey (storeKey x) N
        · rw [if_pos h2, List.filter_cons]
          rw [show (!(hasStoreKey (storeKey x) N)) = false by simp [h2]]
          simp only [Bool.false_eq_true, if_false]
          exact ih
        · have h2f : hasStoreKey (storeKey x) N = false := by simpa using h2
          rw [if_neg (by simp [h2f]), List.filter_cons]
          rw [show (!(hasStoreKey (storeKey x) N)) = true by simp [h2f]]
          simp only [if_true, List.cons_append]
          rw [ih]

theorem filter_not_hasKey_dedupeLast_self (N : List StoreRow) :
    (dedupeKeepLast N).filter (fun x => !(hasStoreKey (storeKey x) N)) = [] := by
  apply List.filter_eq_nil_iff.mpr
  intro x hx
  have hxN : x ∈ N := mem_dedupeKeepLast N x hx
  have hkey : hasStoreKey (storeKey x) N = true :=
    List.any_eq_true.mpr ⟨x, hxN, by simp⟩
  simp [hkey]

instance : IsTotal StoreRow storeRowLe := ⟨by
  intro a b
  unfold storeRowLe
  rcases lt_trichotomy a.log_date b.log_date with h | h | h
  · exact Or.inl (Or.inl h)
  · rcases le_total a.currency b.currency with hc | hc
    · exact Or.inl (Or.inr ⟨h, hc⟩)
    · exact Or.inr (Or.inr ⟨h.symm, hc⟩)
  · exact Or.inr (Or.inl h)⟩

instance : IsTrans StoreRow storeRowLe := ⟨by
  intro a b c hab hbc
  unfold storeRowLe at hab hbc ⊢
  rcases hab with h1 | ⟨h1, h1c⟩
  · rcases hbc with h2 | ⟨h2, _⟩
    · exact Or.inl (h1.trans h2)
    · exact Or.inl (lt_of_lt_of_eq h1 h2)
  · rcases hbc with h2 | ⟨h2, h2c⟩
    · exact Or.inl (lt_of_eq_of_lt h1 h2)
    · exact Or.inr ⟨h1.trans h2, h1c.trans h2c⟩⟩

/-- The strict part of the writer's sort order: the keys differ.  On lists
with pairwise-distinct `(log_date, currency)` keys, sortedness in this
relation pins the list down uniquely. -/
def storeRowLt (a b : StoreRow) : Prop :=
  storeRowLe a b ∧ storeKey a ≠ storeKey b

instance : IsAntisymm StoreRow storeRowLt := ⟨by
  intro a b hab hba
  exfalso
  apply hab.2
  have hab1 : a.log_date < b.log_date ∨
      (a.log_date = b.log_date ∧ a.currency ≤ b.currency) := hab.1
  have hba1 : b.log_date < a.log_date ∨
      (b.log_date = a.log_date ∧ b.currency ≤ a.currency) := hba.1
  unfold storeKey
  rcases hab1 with h1 | ⟨h1, h1c⟩
  · rcases hba1 with h2 | ⟨h2, _⟩
    · exact absurd (h1.trans h2) (lt_irrefl _)
    · exact absurd (lt_of_lt_of_eq h1 h2) (lt_irrefl _)
  · rcases hba1 with h2 | ⟨h2, h2c⟩
    · exact absurd (lt_of_lt_of_eq h2 h1) (lt_irrefl _)
    · rw [Prod.mk.injEq]
      exact ⟨h1, le_antisymm h1c h2c⟩⟩

theorem insertionSort_eq_of_perm_of_pairwiseKeys (l₁ l₂ : List StoreRow)
    (hp : List.Perm l₁ l₂)
    (h₁ : l₁.Pairwise (fun a b => storeKey a ≠ storeKey b)) :
    List.insertionSort storeRowLe l₁ = List.insertionSort storeRowLe l₂ := by
  have hsymm : ∀ {x y : StoreRow}, storeKey x ≠ storeKey y → storeKey y ≠ storeKey x :=
    fun {x y} h => h.symm
  have hperm : List.Perm (List.insertionSort storeRowLe l₁)
      (List.insertionSort storeRowLe l₂) :=
    ((List.perm_insertionSort storeRowLe l₁).trans hp).trans
      (List.perm_insertionSort storeRowLe l₂).symm
  have hk₁ : (List.insertionSort storeRowLe l₁).Pairwise
      (fun a b => storeKey a ≠ storeKey b) :=
    ((List.perm_insertionSort storeRowLe l₁).pairwise_iff hsymm).mpr h₁
  have hk₂ : (List.insertionSort storeRowLe l₂).Pairwise
      (fun a b => storeKey a ≠ storeKey b) :=
    ((List.perm_insertionSort storeRowLe l₂).pairwise_iff hsymm).mpr
      ((hp.pairwise_iff hsymm).mp h₁)
  have hlt₁ : (List.insertionSort storeRowLe l₁).Pairwise storeRowLt :=
    ((List.sorted_insertionSort storeRowLe l₁).and hk₁).imp (fun h => h)
  have hlt₂ : (List.insertionSort storeRowLe l₂).Pairwise storeRowLt :=
    ((List.sorted_insertionSort storeRowLe l₂).and hk₂).imp (fun h => h)
  exact List.eq_of_perm_of_sorted (r := storeRowLt) hperm hlt₁ hlt₂

theorem mergeNewWins_idempotent (S N : List StoreRow) :
    mergeNewWins (mergeNewWins S N) N = mergeNewWins S N := by
  have hsymm : ∀ {x y : StoreRow}, storeKey x ≠ storeKey y → storeKey y ≠ storeKey x :=
    fun {x y} h => h.symm
  have hDp := dedupeKeepLast_pairwise (S ++ N)
  have hRD : List.Perm (mergeNewWins S N) (dedupeKeepLast (S ++ N)) :=
    List.perm_insertionSort _ _
  have hRp : (mergeNewWins S N).Pairwise (fun a b => storeKey a ≠ storeKey b) :=
    (hRD.pairwise_iff hsymm).mpr hDp
  have hRe : dedupeKeepLast (mergeNewWins S N) = mergeNewWins S N :=
    dedupeKeepLast_eq_self _ hRp
  have hstep1 : dedupeKeepLast (mergeNewWins S N ++ N) =
      (mergeNewWins S N).filter (fun x => !(hasStoreKey (storeKey x) N))
        ++ dedupeKeepLast N := by
    rw [dedupeKeepLast_append, hRe]
  have hfilterD : (dedupeKeepLast (S ++ N)).filter
        (fun x => !(hasStoreKey (storeKey x) N))
      = (dedupeKeepLast S).filter (fun x => !(hasStoreKey (storeKey x) N)) := by
    rw [dedupeKeepLast_append, List.filter_append, filter_not_hasKey_dedupeLast_self,
      List.append_nil]
    apply List.filter_eq_self.mpr
    intro y hy
    exact (List.mem_filter.mp hy).2
  have hperm : List.Perm (dedupeKeepLast (mergeNewWins S N ++ N))
      (dedupeKeepLast (S ++ N)) := by
    rw [hstep1]
    have h1 : List.Perm
        ((mergeNewWins S N).filter (fun x => !(hasStoreKey (storeKey x) N)))
        ((dedupeKeepLast (S ++ N)).filter (fun x => !(hasStoreKey (storeKey x) N))) :=
      hRD.filter _
    have h2 := h1.append_right (dedupeKeepLast N)
    refine h2.trans ?_
    rw [hfilterD, dedupeKeepLast_append S N]
  have hstart : mergeNewWins (mergeNewWins S N) N
      = List.insertionSort storeRowLe (dedupeKeepLast (mergeNewWins S N ++ N)) := rfl
  rw [hstart,
    insertionSort_eq_of_perm_of_pairwiseKeys _ _ hperm (dedupeKeepLast_pairwise _)]
  rfl

theorem dedupeKeepFirst_cons (x : MonthRow) (xs : List MonthRow) :
    dedupeKeepFirst (x :: xs)
      = x :: dedupeKeepFirst (xs.filter (fun y => ¬ y.ym_currency = x.ym_currency)) := by
  rw [dedupeKeepFirst]

theorem mem_dedupeKeepFirst_fueled : ∀ (n : Nat) (l : List MonthRow), l.length ≤ n →
    ∀ y ∈ dedupeKeepFirst l, y ∈ l := by
  intro n
  induction n with
  | zero =>
      intro l hl y hy
      have : l = [] := List.eq_nil_of_length_eq_zero (Nat.le_zero.mp hl)
      subst this
      simpa [dedupeKeepFirst] using hy
  | succ n ih =>
      intro l hl y hy
      cases l with
      | nil => simpa [dedupeKeepFirst] using hy
      | cons x xs =>
          rw [dedupeKeepFirst_cons] at hy
          rcases List.mem_cons.mp hy with h' | h'
          · exact h' ▸ List.mem_cons_self x xs
          · have hlen : (xs.filter (fun y => ¬ y.ym_currency = x.ym_currency)).length ≤ n := by
              have := List.length_filter_le (fun y => ¬ y.ym_currency = x.ym_currency) xs
              simp only [List.length_cons] at hl
              omega
            have := ih _ hlen y h'
            exact List.mem_cons_of_mem x (List.mem_filter.mp this).1

theorem dedupeKeepFirst_pairwise_fueled : ∀ (n : Nat) (l : List MonthRow), l.length ≤ n →
    (dedupeKeepFirst l).Pairwise (fun a b => a.ym_currency ≠ b.ym_currency) := by
  intro n
  induction n with
  | zero =>
      intro l hl
      have : l = [] := List.eq_nil_of_length_eq_zero (Nat.le_zero.mp hl)
      subst this
      simp [dedupeKeepFirst]
  | succ n ih =>
      intro l hl
      cases l with
      | nil => simp [dedupeKeepFirst]
      | cons x xs =>
          rw [dedupeKeepFirst_cons]
          have hlen : (xs.filter (fun y => ¬ y.ym_currency = x.ym_currency)).length ≤ n := by
            have := List.length_filter_le (fun y => ¬ y.ym_currency = x.ym_currency) xs
            simp only [List.length_cons] at hl
            omega
          refine List.Pairwise.cons ?_ (ih _ hlen)
          intro y hy
          have hyf := mem_dedupeKeepFirst_fueled n _ hlen y hy
          have := (List.mem_filter.mp hyf).2
          intro hk
          simp [hk] at this

theorem keys_dedupeKeepFirst_fueled : ∀ (n : Nat) (l : List MonthRow), l.length ≤ n →
    ∀ y ∈ l, ∃ z ∈ dedupeKeepFirst l, z.ym_currency = y.ym_currency := by
  intro n
  induction n with
  | zero =>
      intro l hl y hy
      have : l = [] := List.eq_nil_of_length_eq_zero (Nat.le_zero.mp hl)
      subst this
      simp at hy
  | succ n ih =>
      intro l hl y hy
      cases l with
      | nil => simp at hy
      | cons x xs =>
          rw [dedupeKeepFirst_cons]
          rcases List.mem_cons.mp hy with h' | h'
          · exact ⟨x, List.mem_cons_self _ _, by rw [h']⟩
          · by_cases hk : y.ym_currency = x.ym_currency
            · exact ⟨x, List.mem_cons_self _ _, hk.symm⟩
            · have hyf : y ∈ xs.filter (fun z => ¬ z.ym_currency = x.ym_currency) :=
                List.mem_filter.mpr ⟨h', by simp [hk]⟩
              have hlen : (xs.filter (fun z => ¬ z.ym_currency = x.ym_currency)).length ≤ n := by
                have := List.length_filter_le (fun z => ¬ z.ym_currency = x.ym_currency) xs
                simp only [List.length_cons] at hl
                omega
              obtain ⟨z, hz, hzk⟩ := ih _ hlen y hyf
              exact ⟨z, List.mem_cons_of_mem x hz, hzk⟩

/-- `dedupeKeepFirst` drops an appended batch entirely when the stored part
already has pairwise-distinct keys covering every key of the batch. -/
theorem dedupeKeepFirst_append_absorbed :
    ∀ (l m : List MonthRow),
      l.Pairwise (fun a b => a.ym_currency ≠ b.ym_currency) →
      (∀ y ∈ m, ∃ z ∈ l, z.ym_currency = y.ym_currency) →
      dedupeKeepFirst (l ++ m) = l := by
  intro l
  induction l with
  | nil =>
      intro m _ hkeys
      cases m with
      | nil => simp [dedupeKeepFirst]
      | cons y ys =>
          obtain ⟨z, hz, _⟩ := hkeys y (List.mem_cons_self _ _)
          simp at hz
  | cons x t ih =>
      intro m hpair hkeys
      have hx := List.pairwise_cons.mp hpair
      rw [List.cons_append, dedupeKeepFirst_cons, List.filter_append]
      have ht : t.filter (fun y => ¬ y.ym_currency = x.ym_currency) = t := by
        apply List.filter_eq_self.mpr
        intro y hy
        simp [(hx.1 y hy).symm]
      rw [ht]
      have hkeys' : ∀ y ∈ m.filter (fun z => ¬ z.ym_currency = x.ym_currency),
          ∃ z ∈ t, z.ym_currency = y.ym_currency := by
        intro y hy
        obtain ⟨hym, hyk⟩ := List.mem_filter.mp hy
        obtain ⟨z, hz, hzk⟩ := hkeys y hym
        rcases List.mem_cons.mp hz with h' | h'
        · exfalso
          have : y.ym_currency = x.ym_currency := by rw [← hzk, h']
          simp [this] at hyk
        · exact ⟨z, h', hzk⟩
      rw [ih _ hx.2 hkeys']

theorem mergeInsertIfAbsent_idempotent (O M : List MonthRow) :
    mergeInsertIfAbsent (mergeInsertIfAbsent O M) M = mergeInsertIfAbsent O M := by
  have hpair : (dedupeKeepFirst (O ++ M)).Pairwise
      (fun a b => a.ym_currency ≠ b.ym_currency) :=
    dedupeKeepFirst_pairwise_fueled (O ++ M).length _ (Nat.le_refl _)
  have hkeys : ∀ y ∈ M, ∃ z ∈ dedupeKeepFirst (O ++ M),
      z.ym_currency = y.ym_currency := by
    intro y hy
    exact keys_dedupeKeepFirst_fueled (O ++ M).length _ (Nat.le_refl _) y
      (List.mem_append_right O hy)
  exact dedupeKeepFirst_append_absorbed _ M hpair hkeys

/-- C8: both merge strategies are idempotent — re-merging the same new-rows
batch changes nothing: the daily writer's "new row wins" merge
(concat, de-dupe on `(log_date, currency)` keeping the last, sort) and the
month writer's "insert if absent" merge (concat, de-dupe on the
`"conversion year-month-currency"` key keeping the first). -/
theorem C8_merge_policies_idempotent :
    (∀ S N : List StoreRow, mergeNewWins (mergeNewWins S N) N = mergeNewWins S N) ∧
    (∀ O M : List MonthRow,
      mergeInsertIfAbsent (mergeInsertIfAbsent O M) M = mergeInsertIfAbsent O M) :=
  ⟨mergeNewWins_idempotent, mergeInsertIfAbsent_idempotent⟩

end CCR
